import Mathlib

/-!
Verification of the ADO PR KPI generator core against its specification.

Shallow embedding of the Python modules `stats.py`, `kpi.py` and
`ado_client.py`:
* timestamps and duration samples are modelled as rationals (`ℚ`); the code's
  arithmetic on them (subtraction, comparison, linear interpolation) is exact,
  so `ℚ` captures it faithfully;
* `None` and raised exceptions become `Option` and `Except String`;
* the HTTP layer is modelled by passing the server's response sequence as a
  function from the (1-based) attempt number, or from the `$skip` offset, to
  the response the server would produce for that request.
-/

namespace KPIGen

/-! ## stats.py -/

/-- Embedding of `stats.calculate_percentile`.

Mirrors `src/myapp/stats.py`: validation of `p` first (a `ValueError` becomes
`Except.error`), then the empty / `p <= 0` / `p >= 100` shortcuts, then linear
interpolation.  Python's `int(position)` truncates toward zero; `position` is
nonnegative here, so it coincides with the `⌊position⌋` used below. -/
def calculate_percentile (sorted_values : List ℚ) (p : ℚ) :
    Except String (Option ℚ) :=
  if ¬ (0 ≤ p ∧ p ≤ 100) then
    .error "Percentile p must be in the range [0, 100]."
  else if sorted_values.isEmpty then
    .ok none
  else if p ≤ 0 then
    .ok (some (sorted_values.getD 0 0))
  else if 100 ≤ p then
    .ok (some (sorted_values.getD (sorted_values.length - 1) 0))
  else
    let position : ℚ := ((sorted_values.length : ℚ) - 1) * (p / 100)
    let lower_index : ℕ := (⌊position⌋).toNat
    let upper_index : ℕ := (⌈position⌉).toNat
    if lower_index = upper_index then
      .ok (some (sorted_values.getD lower_index 0))
    else
      let lower_value := sorted_values.getD lower_index 0
      let upper_value := sorted_values.getD upper_index 0
      .ok (some (lower_value + (upper_value - lower_value) *
        (position - (lower_index : ℚ))))

/-- The percentile algorithm exactly as the specification words it
(§4.4 "Percentile algorithm"): `n == 0` is absent; `p <= 0` gives the first
element; `p >= 100` gives the last; otherwise `index = (n-1)*p/100`,
`lo = floor(index)`, `hi = ceil(index)`, the element at `lo` when `lo == hi`,
and `values[lo] + (values[hi]-values[lo]) * (index - lo)` otherwise. -/
def spec_percentile (values : List ℚ) (p : ℚ) : Option ℚ :=
  if values.length = 0 then
    none
  else if p ≤ 0 then
    some (values.getD 0 0)
  else if 100 ≤ p then
    some (values.getD (values.length - 1) 0)
  else
    let index : ℚ := ((values.length : ℚ) - 1) * (p / 100)
    let lo : ℤ := ⌊index⌋
    let hi : ℤ := ⌈index⌉
    if lo = hi then
      some (values.getD lo.toNat 0)
    else
      some (values.getD lo.toNat 0 +
        (values.getD hi.toNat 0 - values.getD lo.toNat 0) * (index - (lo : ℚ)))

/-! ## models.py -/

/-- `models.Comment`: the minimal comment data used by the KPI extractor. -/
structure Comment where
  authorId : String
  publishedDate : Option ℚ

/-- `models.Thread`: a pull-request discussion thread identifier. -/
structure Thread where
  id : ℤ

/-- `models.PullRequest`.  `creationDate` is kept optional because
`kpi.compute_first_response_time` explicitly guards against a missing
creation date even though the dataclass declares the field as required. -/
structure PullRequest where
  pullRequestId : ℤ
  creationDate : Option ℚ
  createdById : String
  closedDate : Option ℚ
  status : String

/-! ## kpi.py -/

/-- The body of the inner comment loop of `kpi.compute_first_response_time`:
skip comments by the PR author and comments without a published date, else
keep the earlier of the candidate timestamp and the accumulator. -/
def consider_comment (createdById : String) (acc : Option ℚ) (c : Comment) :
    Option ℚ :=
  if c.authorId = createdById then acc
  else
    match c.publishedDate with
    | none => acc
    | some t =>
      match acc with
      | none => some t
      | some cur => if t < cur then some t else acc

/-- Embedding of `kpi.compute_first_response_time`.  The two client calls
(`list_threads`, `list_thread_comments`) are modelled by passing the fetched
thread list and a function from thread id to that thread's comment list. -/
def compute_first_response_time (threads : List Thread)
    (thread_comments : ℤ → List Comment) (pr : PullRequest) : Option ℚ :=
  match pr.creationDate with
  | none => none
  | some creation =>
    let first_response_at : Option ℚ :=
      threads.foldl
        (fun acc thread =>
          (thread_comments thread.id).foldl (consider_comment pr.createdById) acc)
        none
    match first_response_at with
    | none => none
    | some t =>
      let duration_seconds := t - creation
      if duration_seconds < 0 then none else some duration_seconds

/-- The published timestamps of the qualifying comments of a pull request:
all comments across all threads whose author differs from the PR author and
whose published date is present (the set claim C2 takes the minimum over). -/
def qualifying_timestamps (threads : List Thread)
    (thread_comments : ℤ → List Comment) (pr : PullRequest) : List ℚ :=
  ((threads.map fun thread => thread_comments thread.id).flatten).filterMap
    fun c => if c.authorId = pr.createdById then none else c.publishedDate

/-- Embedding of `kpi.compute_completion_time`. -/
def compute_completion_time (pr : PullRequest) : Option ℚ :=
  if pr.status ≠ "completed" then none
  else
    match pr.creationDate, pr.closedDate with
    | some creation, some closed =>
      let duration_seconds := closed - creation
      if duration_seconds < 0 then none else some duration_seconds
    | _, _ => none

/-! ## ado_client.py -/

/-- One HTTP response as seen by `AdoClient._get_json`: its status code, the
optional `Retry-After` header, the response text, and `json = some payload`
when the body parses as a JSON object (the payload itself is opaque here). -/
structure HttpResponse where
  status : ℕ
  retryAfter : Option String
  body : String
  json : Option String

/-- `AdoClient._MAX_RETRIES`. -/
def MAX_RETRIES : ℕ := 5

/-- `AdoClient._MAX_BACKOFF_SECONDS`. -/
def MAX_BACKOFF_SECONDS : ℤ := 30

/-- `AdoClient._PULL_REQUEST_PAGE_SIZE`. -/
def PULL_REQUEST_PAGE_SIZE : ℕ := 100

/-- Decimal digits to a natural number; fails on a non-digit or on the empty
digit string.  Helper for `parse_int`. -/
def digits_to_nat (l : List Char) : Option ℕ :=
  if l.isEmpty then none
  else
    l.foldl
      (fun acc c =>
        acc.bind fun a =>
          if c.isDigit then some (a * 10 + (c.toNat - 48)) else none)
      (some 0)

/-- Model of Python's `int(header)` as used by `_extract_backoff_seconds`:
an optional minus sign followed by decimal digits; anything else is a parse
failure (Python's further allowances — surrounding whitespace, a plus sign,
underscores — do not matter to any claim). -/
def parse_int (s : String) : Option ℤ :=
  match s.data with
  | '-' :: rest => (digits_to_nat rest).map fun n => -(n : ℤ)
  | l => (digits_to_nat l).map fun n => (n : ℤ)

/-- Embedding of `AdoClient._extract_backoff_seconds`.  Python's
`if retry_after_header:` skips both a missing and an empty header; `int(h)`
is modelled by `parse_int` (a parse failure falls through to the exponential
branch, as the `except ValueError: pass` does). -/
def extract_backoff_seconds (response : HttpResponse) (attempt : ℕ) : ℤ :=
  match response.retryAfter with
  | some h =>
    if h ≠ "" then
      match parse_int h with
      | some retry_after_seconds =>
        min MAX_BACKOFF_SECONDS (max 1 retry_after_seconds)
      | none => min MAX_BACKOFF_SECONDS (2 ^ (attempt - 1))
    else
      min MAX_BACKOFF_SECONDS (2 ^ (attempt - 1))
  | none => min MAX_BACKOFF_SECONDS (2 ^ (attempt - 1))

/-- Claim C6's reading of the backoff rule, verbatim: the parsed `Retry-After`
value clamped only to the 30-second ceiling when present and parseable,
`min(30, 2^(attempt-1))` otherwise. -/
def claim_backoff (response : HttpResponse) (attempt : ℕ) : ℤ :=
  match response.retryAfter with
  | some h =>
    match parse_int h with
    | some retry_after_seconds => min MAX_BACKOFF_SECONDS retry_after_seconds
    | none => min MAX_BACKOFF_SECONDS (2 ^ (attempt - 1))
  | none => min MAX_BACKOFF_SECONDS (2 ^ (attempt - 1))

/-- The message of the `ApiError` raised on a non-retryable (or final) HTTP
error status, as built in `AdoClient._get_json`. -/
def http_error_msg (url : String) (status : ℕ) (body : String) : String :=
  "Azure DevOps API request failed: GET " ++ url ++ " returned " ++
    toString status ++ " - " ++ body

/-- The message of the `ApiError` raised on invalid JSON. -/
def invalid_json_msg (url : String) : String :=
  "Azure DevOps API returned invalid JSON: GET " ++ url

/-- The message of the `ApiError` raised after the retry loop. -/
def retries_exhausted_msg (url : String) : String :=
  "Azure DevOps request failed after retries: GET " ++ url

/-- The retry loop of `AdoClient._get_json`, one step per loop iteration.
`responses` maps the 1-based attempt number to the response the server
produces for that attempt; `fuel` counts the remaining loop iterations
(started at `MAX_RETRIES`, so the `fuel = 0` case is the `raise` after the
`for` loop); the second component counts the `time.sleep` calls made.
Transport-level exceptions are not modelled: every attempt yields a
response. -/
def get_json_go (url : String) (responses : ℕ → HttpResponse) :
    ℕ → ℕ → ℕ → Except String String × ℕ
  | 0, _, sleeps => (.error (retries_exhausted_msg url), sleeps)
  | fuel + 1, attempt, sleeps =>
    if ((responses attempt).status = 429 ∨
        (500 ≤ (responses attempt).status ∧ (responses attempt).status ≤ 599))
        ∧ attempt < MAX_RETRIES then
      get_json_go url responses fuel (attempt + 1) (sleeps + 1)
    else if 400 ≤ (responses attempt).status then
      (.error (http_error_msg url (responses attempt).status
        (responses attempt).body), sleeps)
    else
      match (responses attempt).json with
      | some payload => (.ok payload, sleeps)
      | none => (.error (invalid_json_msg url), sleeps)

/-- Embedding of `AdoClient._get_json` (status-code paths): run the retry
loop from attempt 1 with no sleeps performed yet. -/
def get_json (url : String) (responses : ℕ → HttpResponse) :
    Except String String × ℕ :=
  get_json_go url responses MAX_RETRIES 1 0

/-- One raw pull-request item of a `pullrequests` page, with each field as
`AdoClient.list_pull_requests` reads it: `none` models a missing JSON field,
and for `creationDate`/`closedDate` also a value `_parse_datetime` maps to
`None`.  Timestamps arrive already parsed (ISO-8601 parsing itself is not
under verification here). -/
structure RawPullRequestItem where
  pullRequestId : Option ℤ
  creationDate : Option ℚ
  createdById : Option String
  closedDate : Option ℚ
  status : Option String

/-- Python falsiness of an optional string (`not created_by_id` /
`not status` in `list_pull_requests`): missing or empty. -/
def falsy : Option String → Bool
  | none => true
  | some s => s == ""

/-- The `ApiError` message for a malformed pull-request item.  The code
interpolates the offending payload as well; the model keeps the fixed text
and the repository id. -/
def missing_fields_msg (repo_id : String) : String :=
  "Azure DevOps pull request payload is missing required fields: repo_id=" ++
    repo_id

/-- The per-item decoding step of `AdoClient.list_pull_requests`: reject the
item when its id or creation date is missing or its author id or status is
falsy, else build the `PullRequest` record. -/
def parse_pull_request_item (repo_id : String) (item : RawPullRequestItem) :
    Except String PullRequest :=
  if item.pullRequestId = none ∨ item.creationDate = none ∨
      falsy item.createdById ∨ falsy item.status then
    .error (missing_fields_msg repo_id)
  else
    .ok
      { pullRequestId := item.pullRequestId.getD 0
        creationDate := item.creationDate
        createdById := item.createdById.getD ""
        closedDate := item.closedDate
        status := item.status.getD "" }

/-- The inner `for item in page_items` loop of `list_pull_requests`: decode
the page's items in order, propagating the first decoding error (the raised
`ApiError` aborts the whole listing). -/
def parse_page (repo_id : String) : List RawPullRequestItem →
    Except String (List PullRequest)
  | [] => .ok []
  | item :: rest =>
    match parse_pull_request_item repo_id item with
    | .error e => .error e
    | .ok pr =>
      match parse_page repo_id rest with
      | .error e => .error e
      | .ok prs => .ok (pr :: prs)

/-- The `while True` pagination loop of `AdoClient.list_pull_requests`.
`pages` maps a `$skip` offset to the page the server returns for it (each
request uses `$top = 100`); `acc` is the `pull_requests` accumulator; `fuel`
bounds the number of page requests so the model is total — `none` means the
loop did not terminate within `fuel` requests. -/
def list_pull_requests_go (repo_id : String)
    (pages : ℕ → List RawPullRequestItem) :
    ℕ → ℕ → List PullRequest → Option (Except String (List PullRequest))
  | 0, _, _ => none
  | fuel + 1, skip, acc =>
    match parse_page repo_id (pages skip) with
    | .error e => some (.error e)
    | .ok prs =>
      if (pages skip).length < PULL_REQUEST_PAGE_SIZE then
        some (.ok (acc ++ prs))
      else
        list_pull_requests_go repo_id pages fuel
          (skip + PULL_REQUEST_PAGE_SIZE) (acc ++ prs)

/-- Embedding of `AdoClient.list_pull_requests` (the pagination and decoding
logic; the query-parameter construction has no bearing on the claims). -/
def list_pull_requests (repo_id : String)
    (pages : ℕ → List RawPullRequestItem) (fuel : ℕ) :
    Option (Except String (List PullRequest)) :=
  list_pull_requests_go repo_id pages fuel 0 []

/-- The malformedness test of `AdoClient.list_pull_requests` on a raw item:
`pr_id is None or creation_date is None or not created_by_id or not status`. -/
def malformed (item : RawPullRequestItem) : Prop :=
  item.pullRequestId = none ∨ item.creationDate = none ∨
    falsy item.createdById ∨ falsy item.status

/-- The four-field well-formedness of a decoded `PullRequest` record that
claim C7 asserts: creation date present, author id and status non-falsy
(the id is present by construction). -/
def wellformed_pr (pr : PullRequest) : Prop :=
  pr.creationDate ≠ none ∧ pr.createdById ≠ "" ∧ pr.status ≠ ""

/-- The minimum-tracking step over already-filtered timestamps; the comment
fold of `compute_first_response_time` reduces to folding this over
`qualifying_timestamps`. -/
def min_step (acc : Option ℚ) (t : ℚ) : Option ℚ :=
  match acc with
  | none => some t
  | some cur => if t < cur then some t else acc


/-! ## Percentile lemmas -/

lemma position_nonneg {v : List ℚ} {p : ℚ} (hv : v ≠ []) (hp : 0 ≤ p) :
    0 ≤ ((v.length : ℚ) - 1) * (p / 100) := by
  have h1 : 1 ≤ v.length := List.length_pos.mpr hv
  have : (1 : ℚ) ≤ (v.length : ℚ) := by exact_mod_cast h1
  have h2 : (0 : ℚ) ≤ (v.length : ℚ) - 1 := by linarith
  positivity

/-- `calculate_percentile` refines the specification's algorithm on every
valid percentile argument. -/
lemma calculate_percentile_eq_spec (v : List ℚ) (p : ℚ)
    (h0 : 0 ≤ p) (h1 : p ≤ 100) :
    calculate_percentile v p = .ok (spec_percentile v p) := by
  unfold calculate_percentile spec_percentile
  rw [if_neg (show ¬¬ (0 ≤ p ∧ p ≤ 100) from not_not.mpr ⟨h0, h1⟩)]
  by_cases hv : v.isEmpty
  · have : v.length = 0 := by
      simpa [List.isEmpty_iff_length_eq_zero] using hv
    simp [hv, this]
  · have hlen : ¬ v.length = 0 := by
      simpa [List.isEmpty_iff_length_eq_zero] using hv
    have hvne : v ≠ [] := by
      intro h; exact hlen (by simp [h])
    rw [if_neg (by simpa using hv), if_neg hlen]
    by_cases hp0 : p ≤ 0
    · simp [hp0]
    · rw [if_neg hp0, if_neg hp0]
      by_cases hp100 : 100 ≤ p
      · simp [hp100]
      · rw [if_neg hp100, if_neg hp100]
        set pos : ℚ := ((v.length : ℚ) - 1) * (p / 100) with hpos
        have hposn : 0 ≤ pos := position_nonneg hvne h0
        have hfl : (0 : ℤ) ≤ ⌊pos⌋ := Int.floor_nonneg.mpr hposn
        have hcl : (0 : ℤ) ≤ ⌈pos⌉ := Int.ceil_nonneg hposn
        have hcast : ((⌊pos⌋.toNat : ℕ) : ℚ) = ((⌊pos⌋ : ℤ) : ℚ) := by
          exact_mod_cast congrArg (fun z : ℤ => (z : ℚ)) (Int.toNat_of_nonneg hfl)
        by_cases heq : ⌊pos⌋ = ⌈pos⌉
        · rw [if_pos (by rw [heq]), if_pos heq]
        · have hne : ⌊pos⌋.toNat ≠ ⌈pos⌉.toNat := by
            intro h
            exact heq (by omega)
          rw [if_neg hne, if_neg heq, hcast]

lemma spec_percentile_ex50 : spec_percentile [10, 20, 30, 40] 50 = some 25 := by
  have hc : ⌈(3/2 : ℚ)⌉ = 2 := by rw [Int.ceil_eq_iff] ; norm_num
  unfold spec_percentile
  norm_num [hc]
  have h2 : (2 : ℤ).toNat = 2 := rfl
  simp only [h2]
  norm_num

lemma spec_percentile_ex75 :
    spec_percentile [10, 20, 30, 40] 75 = some (65/2) := by
  have hc : ⌈(9/4 : ℚ)⌉ = 3 := by rw [Int.ceil_eq_iff] ; norm_num
  unfold spec_percentile
  norm_num [hc]
  have h2 : (2 : ℤ).toNat = 2 := rfl
  have h3 : (3 : ℤ).toNat = 3 := rfl
  simp only [h2, h3]
  norm_num

lemma spec_percentile_ex90 : spec_percentile [10, 20, 30, 40] 90 = some 37 := by
  have hc : ⌈(27/10 : ℚ)⌉ = 3 := by rw [Int.ceil_eq_iff] ; norm_num
  unfold spec_percentile
  norm_num [hc]
  have h2 : (2 : ℤ).toNat = 2 := rfl
  have h3 : (3 : ℤ).toNat = 3 := rfl
  simp only [h2, h3]
  norm_num

/-- C1: `calculate_percentile` implements the specified linear-interpolation
percentile exactly — it agrees with the algorithm transcribed verbatim from
the specification (`spec_percentile`: absent on empty input, first element
for `p <= 0`, last for `p >= 100`, and the `floor`/`ceil` interpolation rule
otherwise) for every list and every `p` in `[0, 100]`; in particular
`percentile([10,20,30,40], 50) = 25`, `percentile([10,20,30,40], 75) = 32.5`
and `percentile([10,20,30,40], 90) = 37`. -/
theorem claim_C1 (v : List ℚ) (p : ℚ) (h0 : 0 ≤ p) (h1 : p ≤ 100) :
    calculate_percentile v p = .ok (spec_percentile v p) ∧
    calculate_percentile [10, 20, 30, 40] 50 = .ok (some 25) ∧
    calculate_percentile [10, 20, 30, 40] 75 = .ok (some (65/2)) ∧
    calculate_percentile [10, 20, 30, 40] 90 = .ok (some 37) := by
  refine ⟨calculate_percentile_eq_spec v p h0 h1, ?_, ?_, ?_⟩
  · rw [calculate_percentile_eq_spec _ _ (by norm_num) (by norm_num),
      spec_percentile_ex50]
  · rw [calculate_percentile_eq_spec _ _ (by norm_num) (by norm_num),
      spec_percentile_ex75]
  · rw [calculate_percentile_eq_spec _ _ (by norm_num) (by norm_num),
      spec_percentile_ex90]

/-- Witness for C1 at `v = [10,20,30,40]`, `p = 50`. -/
theorem claim_C1_witness :
    calculate_percentile [10, 20, 30, 40] 50 =
      .ok (spec_percentile [10, 20, 30, 40] 50) ∧
    calculate_percentile [10, 20, 30, 40] 50 = .ok (some 25) ∧
    calculate_percentile [10, 20, 30, 40] 75 = .ok (some (65/2)) ∧
    calculate_percentile [10, 20, 30, 40] 90 = .ok (some 37) :=
  claim_C1 [10, 20, 30, 40] 50 (by norm_num) (by norm_num)

/-- C8: an out-of-range percentile argument raises the validation
`ValueError` (modelled as `Except.error` with the code's message), and for
`p` within `[0, 100]` no error is raised. -/
theorem claim_C8 (v : List ℚ) (p : ℚ) :
    ((p < 0 ∨ 100 < p) →
      calculate_percentile v p =
        .error "Percentile p must be in the range [0, 100].") ∧
    (0 ≤ p → p ≤ 100 → ∃ r, calculate_percentile v p = .ok r) := by
  constructor
  · intro h
    unfold calculate_percentile
    rw [if_pos]
    intro hc
    rcases h with h | h
    · exact absurd hc.1 (not_le.mpr h)
    · exact absurd hc.2 (not_le.mpr h)
  · intro h0 h1
    exact ⟨spec_percentile v p, calculate_percentile_eq_spec v p h0 h1⟩

/-- Witness for C8: `p = -1` errors on `[]`, `p = 50` succeeds on `[]`. -/
theorem claim_C8_witness :
    calculate_percentile [] (-1) =
      .error "Percentile p must be in the range [0, 100]." ∧
    (∃ r, calculate_percentile ([] : List ℚ) 50 = .ok r) :=
  ⟨(claim_C8 [] (-1)).1 (Or.inl (by norm_num)),
    (claim_C8 [] 50).2 (by norm_num) (by norm_num)⟩

/-- C9 as frozen claims absence for *every* `p`; but for `p` outside
`[0, 100]` the validation error fires before the empty-input check, so at
`p = -1` the result is an error, not an absent value. -/
theorem claim_C9_counterexample :
    calculate_percentile ([] : List ℚ) (-1) ≠ .ok none := by
  have h : calculate_percentile ([] : List ℚ) (-1) =
      .error "Percentile p must be in the range [0, 100]." :=
    (claim_C8 [] (-1)).1 (Or.inl (by norm_num))
  rw [h]
  intro hc
  exact Except.noConfusion hc

/-- C9, amended: for every percentile argument `p` in `[0, 100]`,
`calculate_percentile` on the empty list is absent. -/
theorem claim_C9 (p : ℚ) (h0 : 0 ≤ p) (h1 : p ≤ 100) :
    calculate_percentile [] p = .ok none := by
  have h := calculate_percentile_eq_spec [] p h0 h1
  simpa [spec_percentile] using h

/-- Witness for C9 (amended) at `p = 50`. -/
theorem claim_C9_witness : calculate_percentile [] 50 = .ok none :=
  claim_C9 50 (by norm_num) (by norm_num)


/-! ## Completion time (kpi.py) -/

/-- C3: `compute_completion_time` yields a value only for a completed pull
request with a closed date; there it is the closed-minus-created duration,
absent when that is negative; non-completed PRs and completed PRs without a
closed date give absent; a completed PR closed 2.5 hours after creation
gives 9000 seconds. -/
theorem claim_C3 (pr : PullRequest) (t0 : ℚ) (hcd : pr.creationDate = some t0) :
    (pr.status ≠ "completed" → compute_completion_time pr = none) ∧
    (pr.closedDate = none → compute_completion_time pr = none) ∧
    (∀ tc : ℚ, pr.status = "completed" → pr.closedDate = some tc →
      compute_completion_time pr = if tc - t0 < 0 then none else some (tc - t0)) ∧
    compute_completion_time
      { pullRequestId := 1, creationDate := some 0, createdById := "a",
        closedDate := some 9000, status := "completed" } = some 9000 := by
  refine ⟨?_, ?_, ?_, ?_⟩
  · intro h
    simp [compute_completion_time, h]
  · intro h
    unfold compute_completion_time
    rw [hcd, h]
    split <;> simp
  · intro tc hst hcl
    unfold compute_completion_time
    rw [hcd, hcl]
    simp [hst]
  · norm_num [compute_completion_time]

/-- Witness for C3 at concrete pull requests: an active PR, a completed PR
without a closed date, and the completed 2.5-hour example. -/
theorem claim_C3_witness :
    compute_completion_time
      { pullRequestId := 1, creationDate := some 0, createdById := "a",
        closedDate := some 9000, status := "active" } = none ∧
    compute_completion_time
      { pullRequestId := 2, creationDate := some 0, createdById := "a",
        closedDate := none, status := "completed" } = none ∧
    compute_completion_time
      { pullRequestId := 3, creationDate := some 0, createdById := "a",
        closedDate := some 9000, status := "completed" } = some 9000 :=
  ⟨(claim_C3
      { pullRequestId := 1, creationDate := some 0, createdById := "a",
        closedDate := some 9000, status := "active" } 0 rfl).1 (by simp),
    (claim_C3
      { pullRequestId := 2, creationDate := some 0, createdById := "a",
        closedDate := none, status := "completed" } 0 rfl).2.1 rfl,
    (claim_C3
      { pullRequestId := 3, creationDate := some 0, createdById := "a",
        closedDate := some 9000, status := "completed" } 0 rfl).2.2.2⟩

/-! ## Backoff (ado_client.py) -/

/-- C6 as frozen says the `Retry-After` value is clamped only to the
30-second ceiling; the code additionally clamps it from below to 1 second
(`max(1, retry_after_seconds)`).  With `Retry-After: 0` on attempt 1 the
code waits `min(30, max(1, 0)) = 1` second, not `min(30, 0) = 0`. -/
theorem claim_C6_counterexample :
    extract_backoff_seconds ⟨429, some "0", "", none⟩ 1 ≠
      claim_backoff ⟨429, some "0", "", none⟩ 1 := by
  have hp : parse_int "0" = some 0 := by decide
  have h1 : extract_backoff_seconds ⟨429, some "0", "", none⟩ 1 = 1 := by
    simp only [extract_backoff_seconds, hp]
    norm_num [MAX_BACKOFF_SECONDS]
  have h2 : claim_backoff ⟨429, some "0", "", none⟩ 1 = 0 := by
    simp only [claim_backoff, hp]
    norm_num [MAX_BACKOFF_SECONDS]
  rw [h1, h2]
  norm_num

/-- C6, amended: the backoff wait equals the `Retry-After` value clamped to
the range `[1, 30]` when the header is present and parseable as an integer,
and `min(30, 2^(attempt-1))` otherwise; it never exceeds 30 seconds. -/
theorem claim_C6 (r : HttpResponse) (attempt : ℕ) (hattempt : 1 ≤ attempt) :
    (∀ h v, r.retryAfter = some h → parse_int h = some v →
      extract_backoff_seconds r attempt = min MAX_BACKOFF_SECONDS (max 1 v)) ∧
    ((r.retryAfter = none ∨ ∃ h, r.retryAfter = some h ∧ parse_int h = none) →
      extract_backoff_seconds r attempt =
        min MAX_BACKOFF_SECONDS (2 ^ (attempt - 1))) ∧
    extract_backoff_seconds r attempt ≤ 30 := by
  obtain ⟨st, ra, bd, js⟩ := r
  refine ⟨?_, ?_, ?_⟩
  · intro h v hsome hparse
    have hne : h ≠ "" := by
      rintro rfl
      rw [show parse_int "" = none by decide] at hparse
      exact Option.noConfusion hparse
    simp only at hsome
    subst hsome
    simp only [extract_backoff_seconds, if_pos hne, hparse]
  · rintro (hnone | ⟨h, hsome, hparse⟩) <;> simp only at *
    · subst hnone
      simp only [extract_backoff_seconds]
    · subst hsome
      by_cases hne : h = ""
      · simp [extract_backoff_seconds, hne]
      · simp [extract_backoff_seconds, hne, hparse]
  · have h30 : MAX_BACKOFF_SECONDS = 30 := rfl
    rcases ra with _ | h
    · simp only [extract_backoff_seconds]
      exact h30 ▸ min_le_left (30 : ℤ) ((2 : ℤ) ^ (attempt - 1))
    · by_cases hne : h = ""
      · simp only [extract_backoff_seconds, hne]
        simpa [h30] using min_le_left (30 : ℤ) ((2 : ℤ) ^ (attempt - 1))
      · rcases hp : parse_int h with _ | v
        · simp only [extract_backoff_seconds, if_pos hne, hp]
          exact h30 ▸ min_le_left (30 : ℤ) ((2 : ℤ) ^ (attempt - 1))
        · simp only [extract_backoff_seconds, if_pos hne, hp]
          exact h30 ▸ min_le_left (30 : ℤ) (max 1 v)

/-- Witness for C6 (amended) at concrete headers and attempts. -/
theorem claim_C6_witness :
    extract_backoff_seconds ⟨429, some "60", "", none⟩ 1 =
      min MAX_BACKOFF_SECONDS (max 1 60) ∧
    extract_backoff_seconds ⟨429, none, "", none⟩ 3 =
      min MAX_BACKOFF_SECONDS (2 ^ (3 - 1)) ∧
    extract_backoff_seconds ⟨429, some "x", "", none⟩ 2 ≤ 30 :=
  ⟨(claim_C6 ⟨429, some "60", "", none⟩ 1 (by norm_num)).1 "60" 60 rfl
      (by decide),
    (claim_C6 ⟨429, none, "", none⟩ 3 (by norm_num)).2.1 (Or.inl rfl),
    (claim_C6 ⟨429, some "x", "", none⟩ 2 (by norm_num)).2.2⟩


/-! ## First response time (kpi.py) -/

/-- Folding one thread's comments reduces to folding `min_step` over the
qualifying published timestamps of the list. -/
lemma comment_fold_eq (a : String) (cs : List Comment) (acc : Option ℚ) :
    cs.foldl (consider_comment a) acc =
      (cs.filterMap fun c =>
        if c.authorId = a then none else c.publishedDate).foldl min_step acc := by
  induction cs generalizing acc with
  | nil => rfl
  | cons c rest ih =>
    by_cases hA : c.authorId = a
    · simp only [List.foldl_cons, List.filterMap_cons, hA, if_pos rfl,
        consider_comment, if_true]
      exact ih acc
    · rcases hp : c.publishedDate with _ | t
      · simp only [List.foldl_cons, List.filterMap_cons, if_neg hA,
          consider_comment, hp]
        exact ih acc
      · simp only [List.foldl_cons, List.filterMap_cons, if_neg hA,
          consider_comment, hp, List.foldl_cons]
        have : (match acc with
            | none => some t
            | some cur => if t < cur then some t else acc) = min_step acc t := rfl
        rw [this]
        exact ih (min_step acc t)

/-- The whole thread fold of `compute_first_response_time` reduces to a fold
over the flattened list of all comments of all threads. -/
lemma threads_fold_eq (a : String) (tc : ℤ → List Comment)
    (threads : List Thread) (acc : Option ℚ) :
    threads.foldl
        (fun acc thread => (tc thread.id).foldl (consider_comment a) acc) acc =
      ((threads.map fun thread => tc thread.id).flatten).foldl
        (consider_comment a) acc := by
  induction threads generalizing acc with
  | nil => rfl
  | cons t rest ih =>
    simp only [List.foldl_cons, List.map_cons, List.flatten_cons,
      List.foldl_append]
    exact ih _

/-- Folding `min_step` from a seeded accumulator computes a plain `min`
fold. -/
lemma min_step_some (l : List ℚ) (a : ℚ) :
    l.foldl min_step (some a) = some (l.foldl min a) := by
  induction l generalizing a with
  | nil => rfl
  | cons t rest ih =>
    have hstep : min_step (some a) t = some (min a t) := by
      rcases lt_or_le t a with h | h
      · simp [min_step, h, min_def, not_le.mpr h]
      · simp [min_step, not_lt.mpr h, min_def, h]
    simp only [List.foldl_cons, hstep, ih]

/-- A `min` fold is bounded by its seed and by every list element. -/
lemma foldl_min_le (l : List ℚ) (a : ℚ) :
    l.foldl min a ≤ a ∧ ∀ x ∈ l, l.foldl min a ≤ x := by
  induction l generalizing a with
  | nil => simp
  | cons t rest ih =>
    obtain ⟨h1, h2⟩ := ih (min a t)
    refine ⟨le_trans h1 (min_le_left _ _), ?_⟩
    intro x hx
    rcases List.mem_cons.mp hx with rfl | hx
    · exact le_trans h1 (min_le_right _ _)
    · exact h2 x hx

/-- A `min` fold returns its seed or a list element. -/
lemma foldl_min_mem (l : List ℚ) (a : ℚ) :
    l.foldl min a = a ∨ l.foldl min a ∈ l := by
  induction l generalizing a with
  | nil => simp
  | cons t rest ih =>
    rcases ih (min a t) with h | h
    · rcases min_choice a t with hc | hc
      · exact Or.inl (h.trans hc)
      · exact Or.inr (List.mem_cons.mpr (Or.inl (h.trans hc)))
    · exact Or.inr (List.mem_cons.mpr (Or.inr h))

/-- C2: with the pull request created at `t0`, the first-response dwell time
is determined by the minimum qualifying comment timestamp — absent when no
comment qualifies (zero threads or only author comments included), and
otherwise `m - t0` for the minimum qualifying timestamp `m`, with a negative
difference reported as absent. -/
theorem claim_C2 (threads : List Thread) (tc : ℤ → List Comment)
    (pr : PullRequest) (t0 : ℚ) (hcd : pr.creationDate = some t0) :
    (qualifying_timestamps threads tc pr = [] →
      compute_first_response_time threads tc pr = none) ∧
    (∀ m : ℚ, m ∈ qualifying_timestamps threads tc pr →
      (∀ x ∈ qualifying_timestamps threads tc pr, m ≤ x) →
      compute_first_response_time threads tc pr =
        if m - t0 < 0 then none else some (m - t0)) := by
  have hfold :
      threads.foldl
        (fun acc thread =>
          (tc thread.id).foldl (consider_comment pr.createdById) acc) none =
      (qualifying_timestamps threads tc pr).foldl min_step none := by
    rw [threads_fold_eq, comment_fold_eq, qualifying_timestamps]
  constructor
  · intro hq
    unfold compute_first_response_time
    rw [hcd]
    simp only [hfold, hq, List.foldl_nil]
  · intro m hm hmin
    unfold compute_first_response_time
    rw [hcd]
    simp only [hfold]
    rcases hql : qualifying_timestamps threads tc pr with _ | ⟨t, rest⟩
    · rw [hql] at hm
      exact absurd hm (List.not_mem_nil m)
    · rw [hql] at hm hmin
      have hfold2 : (t :: rest).foldl min_step none =
          some (rest.foldl min t) := by
        simp only [List.foldl_cons]
        have : min_step none t = some t := rfl
        rw [this, min_step_some]
      rw [hfold2]
      have hr := foldl_min_le rest t
      have hrm : rest.foldl min t = m := by
        apply le_antisymm
        · rcases List.mem_cons.mp hm with rfl | hm2
          · exact hr.1
          · exact hr.2 m hm2
        · rcases foldl_min_mem rest t with h | h
          · rw [h]
            exact hmin t (List.mem_cons_self t rest)
          · exact hmin _ (List.mem_cons.mpr (Or.inr h))
      rw [hrm]

/-- Witness for C2: the spec's dwell-time example — a PR created at `t0 = 0`
by author `A`, a comment by `A` at 180 s and reviewer comments at 480 s and
720 s give a dwell time of 480 s; a PR with zero threads gives an absent
sample. -/
theorem claim_C2_witness :
    compute_first_response_time [⟨1⟩]
      (fun i => if i = 1 then
        [⟨"A", some 180⟩, ⟨"R", some 480⟩, ⟨"R", some 720⟩] else [])
      { pullRequestId := 7, creationDate := some 0, createdById := "A",
        closedDate := none, status := "active" } = some 480 ∧
    compute_first_response_time []
      (fun _ => [])
      { pullRequestId := 8, creationDate := some 0, createdById := "A",
        closedDate := none, status := "active" } = none := by
  constructor
  · have hq : qualifying_timestamps [⟨1⟩]
        (fun i => if i = 1 then
          [⟨"A", some 180⟩, ⟨"R", some 480⟩, ⟨"R", some 720⟩] else [])
        { pullRequestId := 7, creationDate := some 0, createdById := "A",
          closedDate := none, status := "active" } = [480, 720] := by decide
    have h := (claim_C2 [⟨1⟩]
      (fun i => if i = 1 then
        [⟨"A", some 180⟩, ⟨"R", some 480⟩, ⟨"R", some 720⟩] else [])
      { pullRequestId := 7, creationDate := some 0, createdById := "A",
        closedDate := none, status := "active" } 0 rfl).2 480
      (by rw [hq]; decide) (by rw [hq]; decide)
    rw [h]
    norm_num
  · exact (claim_C2 [] (fun _ => [])
      { pullRequestId := 8, creationDate := some 0, createdById := "A",
        closedDate := none, status := "active" } 0 rfl).1 rfl


/-! ## Percentile range bounds -/

/-- In an ascending sorted list, `getD` is monotone in the index (within
bounds). -/
lemma sorted_getD_mono (v : List ℚ) (hs : v.Sorted (· ≤ ·)) {i j : ℕ}
    (hij : i ≤ j) (hj : j < v.length) : v.getD i 0 ≤ v.getD j 0 := by
  have hi : i < v.length := lt_of_le_of_lt hij hj
  rw [List.getD_eq_getElem v 0 hi, List.getD_eq_getElem v 0 hj]
  rcases eq_or_lt_of_le hij with rfl | hlt
  · exact le_refl _
  · have h := List.Sorted.rel_get_of_lt hs
      (a := ⟨i, hi⟩) (b := ⟨j, hj⟩) (Fin.mk_lt_mk.mpr hlt)
    simpa [List.get_eq_getElem] using h

/-- C10: on a non-empty ascending list and `p` in `[0, 100]`, the percentile
is present and lies between the first and the last sample. -/
theorem claim_C10 (v : List ℚ) (p : ℚ) (hv : v ≠ []) (hs : v.Sorted (· ≤ ·))
    (h0 : 0 ≤ p) (h1 : p ≤ 100) :
    ∃ r : ℚ, calculate_percentile v p = .ok (some r) ∧
      v.getD 0 0 ≤ r ∧ r ≤ v.getD (v.length - 1) 0 := by
  have hn : 1 ≤ v.length := List.length_pos.mpr hv
  have hspec := calculate_percentile_eq_spec v p h0 h1
  suffices h : ∃ r, spec_percentile v p = some r ∧
      v.getD 0 0 ≤ r ∧ r ≤ v.getD (v.length - 1) 0 by
    obtain ⟨r, hr, hb1, hb2⟩ := h
    exact ⟨r, by rw [hspec, hr], hb1, hb2⟩
  have hlast : v.getD 0 0 ≤ v.getD (v.length - 1) 0 :=
    sorted_getD_mono v hs (Nat.zero_le _) (by omega)
  unfold spec_percentile
  rw [if_neg (by omega : ¬ v.length = 0)]
  by_cases hp0 : p ≤ 0
  · rw [if_pos hp0]
    exact ⟨_, rfl, le_refl _, hlast⟩
  · rw [if_neg hp0]
    by_cases hp100 : 100 ≤ p
    · rw [if_pos hp100]
      exact ⟨_, rfl, hlast, le_refl _⟩
    · rw [if_neg hp100]
      set idx : ℚ := ((v.length : ℚ) - 1) * (p / 100) with hidx
      have hidx0 : 0 ≤ idx := position_nonneg hv h0
      have hn' : (1 : ℚ) ≤ (v.length : ℚ) := by exact_mod_cast hn
      have hidxle : idx ≤ (v.length : ℚ) - 1 := by
        have hplt : p < 100 := not_le.mp hp100
        have hp100' : p / 100 ≤ 1 := by linarith
        have hnn : (0 : ℚ) ≤ (v.length : ℚ) - 1 := by linarith
        calc idx = ((v.length : ℚ) - 1) * (p / 100) := rfl
          _ ≤ ((v.length : ℚ) - 1) * 1 :=
            mul_le_mul_of_nonneg_left hp100' hnn
          _ = (v.length : ℚ) - 1 := mul_one _
      have hfl0 : 0 ≤ ⌊idx⌋ := Int.floor_nonneg.mpr hidx0
      have hcl_le : ⌈idx⌉ ≤ (v.length : ℤ) - 1 := by
        apply Int.ceil_le.mpr
        push_cast
        exact hidxle
      have hfl_le_cl : ⌊idx⌋ ≤ ⌈idx⌉ := Int.floor_le_ceil idx
      have hnZ : (1 : ℤ) ≤ (v.length : ℤ) := by exact_mod_cast hn
      have hfl_lt : ⌊idx⌋.toNat < v.length := by omega
      have hcl_lt : ⌈idx⌉.toNat < v.length := by omega
      by_cases heq : ⌊idx⌋ = ⌈idx⌉
      · rw [if_pos heq]
        refine ⟨_, rfl, ?_, ?_⟩
        · exact sorted_getD_mono v hs (Nat.zero_le _) hfl_lt
        · exact sorted_getD_mono v hs (by omega) (by omega)
      · rw [if_neg heq]
        have hab : v.getD ⌊idx⌋.toNat 0 ≤ v.getD ⌈idx⌉.toNat 0 :=
          sorted_getD_mono v hs (by omega) hcl_lt
        have hfrac0 : 0 ≤ idx - (⌊idx⌋ : ℚ) := by
          have := Int.floor_le idx
          linarith
        have hfrac1 : idx - (⌊idx⌋ : ℚ) ≤ 1 := by
          have := Int.lt_floor_add_one idx
          push_cast at this
          linarith
        refine ⟨_, rfl, ?_, ?_⟩
        · have hhead : v.getD 0 0 ≤ v.getD ⌊idx⌋.toNat 0 :=
            sorted_getD_mono v hs (Nat.zero_le _) hfl_lt
          nlinarith [hab, hfrac0, hfrac1, hhead]
        · have htail : v.getD ⌈idx⌉.toNat 0 ≤ v.getD (v.length - 1) 0 :=
            sorted_getD_mono v hs (by omega) (by omega)
          nlinarith [hab, hfrac0, hfrac1, htail]

/-- Witness for C10 at `v = [10,20,30,40]`, `p = 90`. -/
theorem claim_C10_witness :
    ∃ r : ℚ, calculate_percentile [10, 20, 30, 40] 90 = .ok (some r) ∧
      ([10, 20, 30, 40] : List ℚ).getD 0 0 ≤ r ∧
      r ≤ ([10, 20, 30, 40] : List ℚ).getD
        (([10, 20, 30, 40] : List ℚ).length - 1) 0 :=
  claim_C10 [10, 20, 30, 40] 90 (by simp)
    (by norm_num [List.sorted_cons]) (by norm_num) (by norm_num)


/-! ## Retry loop (ado_client.py) -/

/-- One unfolding of the retry loop. -/
lemma get_json_go_succ (url : String) (responses : ℕ → HttpResponse)
    (fuel attempt sleeps : ℕ) :
    get_json_go url responses (fuel + 1) attempt sleeps =
      if ((responses attempt).status = 429 ∨
          (500 ≤ (responses attempt).status ∧ (responses attempt).status ≤ 599))
          ∧ attempt < MAX_RETRIES then
        get_json_go url responses fuel (attempt + 1) (sleeps + 1)
      else if 400 ≤ (responses attempt).status then
        (.error (http_error_msg url (responses attempt).status
          (responses attempt).body), sleeps)
      else
        match (responses attempt).json with
        | some payload => (.ok payload, sleeps)
        | none => (.error (invalid_json_msg url), sleeps) := rfl

/-- C4: `_get_json` retries 429/5xx up to 5 attempts with a sleep between
attempts — a 429 followed by a 200 sleeps exactly once and returns the
payload; a non-retryable 4xx fails immediately (zero sleeps) with the
`ApiError` carrying the status and body; five consecutive retryable
responses exhaust the retry budget after 4 sleeps and fail with the
`ApiError` carrying the final response's status and body. -/
theorem claim_C4 (url : String) (responses : ℕ → HttpResponse) :
    (∀ p, (responses 1).status = 429 → (responses 2).status = 200 →
      (responses 2).json = some p →
      get_json url responses = (.ok p, 1)) ∧
    ((400 ≤ (responses 1).status ∧ (responses 1).status ≠ 429 ∧
        (responses 1).status < 500) →
      get_json url responses =
        (.error (http_error_msg url (responses 1).status
          (responses 1).body), 0)) ∧
    ((∀ a, 1 ≤ a → a ≤ 5 →
        ((responses a).status = 429 ∨
          (500 ≤ (responses a).status ∧ (responses a).status ≤ 599))) →
      get_json url responses =
        (.error (http_error_msg url (responses 5).status
          (responses 5).body), 4)) := by
  refine ⟨?_, ?_, ?_⟩
  · intro p h429 h200 hjson
    unfold get_json MAX_RETRIES
    rw [show (5 : ℕ) = 4 + 1 from rfl, get_json_go_succ]
    rw [if_pos ⟨Or.inl h429, by decide⟩]
    rw [show (4 : ℕ) = 3 + 1 from rfl, get_json_go_succ]
    norm_num [h200, hjson]
  · rintro ⟨h400, hne, hlt⟩
    unfold get_json MAX_RETRIES
    rw [show (5 : ℕ) = 4 + 1 from rfl, get_json_go_succ]
    rw [if_neg ?hc]
    case hc =>
      rintro ⟨h429 | ⟨h500, _⟩, _⟩
      · exact hne h429
      · omega
    rw [if_pos h400]
  · intro hr
    unfold get_json MAX_RETRIES
    rw [show (5 : ℕ) = 4 + 1 from rfl, get_json_go_succ]
    rw [if_pos ⟨hr 1 (by decide) (by decide), by decide⟩]
    rw [show (4 : ℕ) = 3 + 1 from rfl, get_json_go_succ]
    simp only [Nat.reduceAdd]
    rw [if_pos ⟨hr 2 (by decide) (by decide), by decide⟩]
    rw [show (3 : ℕ) = 2 + 1 from rfl, get_json_go_succ]
    simp only [Nat.reduceAdd]
    rw [if_pos ⟨hr 3 (by decide) (by decide), by decide⟩]
    rw [show (2 : ℕ) = 1 + 1 from rfl, get_json_go_succ]
    simp only [Nat.reduceAdd]
    rw [if_pos ⟨hr 4 (by decide) (by decide), by decide⟩]
    rw [show (1 : ℕ) = 0 + 1 from rfl, get_json_go_succ]
    simp only [Nat.reduceAdd]
    rw [if_neg (fun hc => absurd hc.2 (by decide))]
    have h5 := hr 5 (by decide) (by decide)
    have h400 : 400 ≤ (responses 5).status := by
      rcases h5 with h | ⟨h, _⟩ <;> omega
    rw [if_pos h400]

/-- Witness for C4 at concrete response sequences: 429-then-200,
an immediate 404, and five 503s. -/
theorem claim_C4_witness :
    get_json "u" (fun a => if a = 1 then ⟨429, none, "", none⟩
      else ⟨200, none, "", some "PAYLOAD"⟩) = (.ok "PAYLOAD", 1) ∧
    get_json "u" (fun _ => ⟨404, none, "not found", none⟩) =
      (.error (http_error_msg "u" 404 "not found"), 0) ∧
    get_json "u" (fun _ => ⟨503, none, "unavailable", none⟩) =
      (.error (http_error_msg "u" 503 "unavailable"), 4) :=
  ⟨(claim_C4 "u" _).1 "PAYLOAD" rfl rfl rfl,
    (claim_C4 "u" _).2.1 ⟨by decide, by decide, by decide⟩,
    (claim_C4 "u" _).2.2 (fun a _ _ => Or.inr ⟨by decide, by decide⟩)⟩


/-! ## Pagination and decoding (ado_client.py) -/

/-- A malformed raw item makes the per-item decoder raise. -/
lemma parse_item_malformed (repo_id : String) (item : RawPullRequestItem)
    (h : malformed item) :
    parse_pull_request_item repo_id item = .error (missing_fields_msg repo_id) := by
  unfold parse_pull_request_item
  exact if_pos h

/-- A successfully decoded item satisfies the four-field invariant. -/
lemma parse_item_ok_wellformed (repo_id : String) (item : RawPullRequestItem)
    (pr : PullRequest) (h : parse_pull_request_item repo_id item = .ok pr) :
    wellformed_pr pr := by
  unfold parse_pull_request_item at h
  by_cases hm : item.pullRequestId = none ∨ item.creationDate = none ∨
      falsy item.createdById ∨ falsy item.status
  · rw [if_pos hm] at h
    exact absurd h (by simp)
  · rw [if_neg hm] at h
    push_neg at hm
    obtain ⟨h1, h2, h3, h4⟩ := hm
    obtain rfl := Except.ok.inj h
    refine ⟨h2, ?_, ?_⟩
    · cases hc : item.createdById with
      | none =>
        rw [hc] at h3
        exact absurd rfl h3
      | some s =>
        rw [hc] at h3
        show (some s).getD "" ≠ ""
        simpa [falsy] using h3
    · cases hc : item.status with
      | none =>
        rw [hc] at h4
        exact absurd rfl h4
      | some s =>
        rw [hc] at h4
        show (some s).getD "" ≠ ""
        simpa [falsy] using h4

lemma parse_page_error_of_mem (repo_id : String) :
    ∀ (items : List RawPullRequestItem) (item : RawPullRequestItem),
      item ∈ items → malformed item →
      ∃ e, parse_page repo_id items = .error e := by
  intro items
  induction items with
  | nil =>
    intro item h
    exact absurd h (List.not_mem_nil _)
  | cons i rest ih =>
    intro item hmem hmal
    rcases List.mem_cons.mp hmem with rfl | hmem2
    · exact ⟨missing_fields_msg repo_id,
        by simp [parse_page, parse_item_malformed repo_id item hmal]⟩
    · cases hpi : parse_pull_request_item repo_id i with
      | error e => exact ⟨e, by simp [parse_page, hpi]⟩
      | ok pr =>
        obtain ⟨e, he⟩ := ih item hmem2 hmal
        exact ⟨e, by simp [parse_page, hpi, he]⟩

lemma parse_page_ok_wellformed (repo_id : String) :
    ∀ (items : List RawPullRequestItem) (prs : List PullRequest),
      parse_page repo_id items = .ok prs → ∀ pr ∈ prs, wellformed_pr pr := by
  intro items
  induction items with
  | nil =>
    intro prs h pr hm
    simp only [parse_page, Except.ok.injEq] at h
    subst h
    exact absurd hm (List.not_mem_nil _)
  | cons i rest ih =>
    intro prs h pr hm
    cases hpi : parse_pull_request_item repo_id i with
    | error e => simp [parse_page, hpi] at h
    | ok pr0 =>
      cases hpp : parse_page repo_id rest with
      | error e => simp [parse_page, hpi, hpp] at h
      | ok prs0 =>
        simp only [parse_page, hpi, hpp, Except.ok.injEq] at h
        subst h
        rcases List.mem_cons.mp hm with rfl | hm2
        · exact parse_item_ok_wellformed repo_id i pr hpi
        · exact ih prs0 hpp pr hm2


lemma flatten_range_succ_shift {α : Type} (qs : ℕ → List α) (k : ℕ) :
    qs 0 ++ (((List.range (k + 1)).map fun i => qs (i + 1)).flatten) =
      ((List.range (k + 2)).map qs).flatten := by
  rw [show k + 2 = (k + 1) + 1 from rfl]
  nth_rewrite 2 [List.range_succ_eq_map]
  rw [List.map_cons, List.flatten_cons, List.map_map]
  rfl

/-- Success case of the pagination loop: `k` full pages followed by a short
page yield the in-order concatenation of all decoded pages appended to the
accumulator. -/
lemma list_pull_requests_go_success (repo_id : String)
    (pages : ℕ → List RawPullRequestItem) (k : ℕ) :
    ∀ (qs : ℕ → List PullRequest) (fuel skip : ℕ) (acc : List PullRequest),
      (∀ i, i < k → (pages (skip + i * 100)).length = 100) →
      (∀ i, i ≤ k → parse_page repo_id (pages (skip + i * 100)) = .ok (qs i)) →
      (pages (skip + k * 100)).length < 100 → k < fuel →
      list_pull_requests_go repo_id pages fuel skip acc =
        some (.ok (acc ++ ((List.range (k + 1)).map qs).flatten)) := by
  induction k with
  | zero =>
    intro qs fuel skip acc hfull hok hshort hfuel
    obtain ⟨fuel', rfl⟩ : ∃ f, fuel = f + 1 := ⟨fuel - 1, by omega⟩
    have h0 := hok 0 (le_refl 0)
    simp only [Nat.zero_mul, Nat.add_zero] at h0 hshort
    simp [list_pull_requests_go, h0, hshort, PULL_REQUEST_PAGE_SIZE,
      List.range_succ]
  | succ k ih =>
    intro qs fuel skip acc hfull hok hshort hfuel
    obtain ⟨fuel', rfl⟩ : ∃ f, fuel = f + 1 := ⟨fuel - 1, by omega⟩
    have h0 := hok 0 (Nat.zero_le _)
    simp only [Nat.zero_mul, Nat.add_zero] at h0
    have hlen0 := hfull 0 (Nat.succ_pos k)
    simp only [Nat.zero_mul, Nat.add_zero] at hlen0
    have harith : ∀ i : ℕ, skip + PULL_REQUEST_PAGE_SIZE + i * 100 =
        skip + (i + 1) * 100 := by
      intro i
      simp only [PULL_REQUEST_PAGE_SIZE]
      ring
    have ihh := ih (fun i => qs (i + 1)) fuel' (skip + PULL_REQUEST_PAGE_SIZE)
      (acc ++ qs 0)
      (by
        intro i hi
        rw [harith i]
        exact hfull (i + 1) (by omega))
      (by
        intro i hi
        rw [harith i]
        exact hok (i + 1) (by omega))
      (by
        rw [harith k]
        exact hshort)
      (by omega)
    simp only [list_pull_requests_go, h0]
    rw [if_neg (by simp [PULL_REQUEST_PAGE_SIZE, hlen0])]
    rw [ihh, List.append_assoc, flatten_range_succ_shift]


/-- Failure case of the pagination loop: full well-formed pages up to page
`k` and a decoding error on page `k` surface that error. -/
lemma list_pull_requests_go_failure (repo_id : String)
    (pages : ℕ → List RawPullRequestItem) (k : ℕ) :
    ∀ (fuel skip : ℕ) (acc : List PullRequest) (e : String),
      (∀ i, i < k → (pages (skip + i * 100)).length = 100) →
      (∀ i, i < k → ∃ qs, parse_page repo_id (pages (skip + i * 100)) = .ok qs) →
      parse_page repo_id (pages (skip + k * 100)) = .error e → k < fuel →
      list_pull_requests_go repo_id pages fuel skip acc =
        some (.error e) := by
  induction k with
  | zero =>
    intro fuel skip acc e hfull hok hbad hfuel
    obtain ⟨fuel', rfl⟩ : ∃ f, fuel = f + 1 := ⟨fuel - 1, by omega⟩
    simp only [Nat.zero_mul, Nat.add_zero] at hbad
    simp [list_pull_requests_go, hbad]
  | succ k ih =>
    intro fuel skip acc e hfull hok hbad hfuel
    obtain ⟨fuel', rfl⟩ : ∃ f, fuel = f + 1 := ⟨fuel - 1, by omega⟩
    obtain ⟨qs0, h0⟩ := hok 0 (Nat.succ_pos k)
    simp only [Nat.zero_mul, Nat.add_zero] at h0
    have hlen0 := hfull 0 (Nat.succ_pos k)
    simp only [Nat.zero_mul, Nat.add_zero] at hlen0
    have harith : ∀ i : ℕ, skip + PULL_REQUEST_PAGE_SIZE + i * 100 =
        skip + (i + 1) * 100 := by
      intro i
      simp only [PULL_REQUEST_PAGE_SIZE]
      ring
    simp only [list_pull_requests_go, h0]
    rw [if_neg (by simp [PULL_REQUEST_PAGE_SIZE, hlen0])]
    exact ih fuel' (skip + PULL_REQUEST_PAGE_SIZE) (acc ++ qs0) e
      (by
        intro i hi
        rw [harith i]
        exact hfull (i + 1) (by omega))
      (by
        intro i hi
        rw [harith i]
        exact hok (i + 1) (by omega))
      (by
        rw [harith k]
        exact hbad)
      (by omega)

/-- Every record an `ok` run of the pagination loop returns is well-formed,
given a well-formed accumulator. -/
lemma list_pull_requests_go_wellformed (repo_id : String)
    (pages : ℕ → List RawPullRequestItem) (fuel : ℕ) :
    ∀ (skip : ℕ) (acc prs : List PullRequest),
      (∀ pr ∈ acc, wellformed_pr pr) →
      list_pull_requests_go repo_id pages fuel skip acc = some (.ok prs) →
      ∀ pr ∈ prs, wellformed_pr pr := by
  induction fuel with
  | zero =>
    intro skip acc prs hacc h
    simp [list_pull_requests_go] at h
  | succ fuel ih =>
    intro skip acc prs hacc h
    cases hpp : parse_page repo_id (pages skip) with
    | error e => simp [list_pull_requests_go, hpp] at h
    | ok qs =>
      have hqs := parse_page_ok_wellformed repo_id _ _ hpp
      simp only [list_pull_requests_go, hpp] at h
      by_cases hshort : (pages skip).length < PULL_REQUEST_PAGE_SIZE
      · rw [if_pos hshort] at h
        simp only [Option.some.injEq, Except.ok.injEq] at h
        subst h
        intro pr hm
        rcases List.mem_append.mp hm with h1 | h1
        · exact hacc pr h1
        · exact hqs pr h1
      · rw [if_neg hshort] at h
        refine ih _ _ _ ?_ h
        intro pr hm
        rcases List.mem_append.mp hm with h1 | h1
        · exact hacc pr h1
        · exact hqs pr h1


/-- Decoding a page of `n` copies of one well-formed item. -/
lemma parse_page_replicate (repo_id : String) (item : RawPullRequestItem)
    (pr : PullRequest) (h : parse_pull_request_item repo_id item = .ok pr) :
    ∀ n, parse_page repo_id (List.replicate n item) =
      .ok (List.replicate n pr) := by
  intro n
  induction n with
  | zero => rfl
  | succ n ih => simp [List.replicate_succ, parse_page, h, ih]

/-- C5: `list_pull_requests` pages with `$top`/`$skip` at page size 100,
stopping at the first page shorter than 100 and returning the concatenation
of all decoded pages in order; in particular a full first page followed by a
shorter second page yields the concatenation of both. -/
theorem claim_C5 (repo_id : String) (pages : ℕ → List RawPullRequestItem) :
    (∀ (k fuel : ℕ) (qs : ℕ → List PullRequest),
      (∀ i, i < k → (pages (i * 100)).length = 100) →
      (∀ i, i ≤ k → parse_page repo_id (pages (i * 100)) = .ok (qs i)) →
      (pages (k * 100)).length < 100 → k < fuel →
      list_pull_requests repo_id pages fuel =
        some (.ok (((List.range (k + 1)).map qs).flatten))) ∧
    (∀ (fuel : ℕ) (q0 q1 : List PullRequest),
      (pages 0).length = 100 → parse_page repo_id (pages 0) = .ok q0 →
      (pages 100).length < 100 → parse_page repo_id (pages 100) = .ok q1 →
      2 ≤ fuel →
      list_pull_requests repo_id pages fuel = some (.ok (q0 ++ q1))) := by
  have hgen : ∀ (k fuel : ℕ) (qs : ℕ → List PullRequest),
      (∀ i, i < k → (pages (i * 100)).length = 100) →
      (∀ i, i ≤ k → parse_page repo_id (pages (i * 100)) = .ok (qs i)) →
      (pages (k * 100)).length < 100 → k < fuel →
      list_pull_requests repo_id pages fuel =
        some (.ok (((List.range (k + 1)).map qs).flatten)) := by
    intro k fuel qs hfull hok hshort hfuel
    have h := list_pull_requests_go_success repo_id pages k qs fuel 0 []
      (by
        intro i hi
        rw [Nat.zero_add]
        exact hfull i hi)
      (by
        intro i hi
        rw [Nat.zero_add]
        exact hok i hi)
      (by
        rw [Nat.zero_add]
        exact hshort)
      hfuel
    simpa [list_pull_requests] using h
  refine ⟨hgen, ?_⟩
  intro fuel q0 q1 hl0 hp0 hl1 hp1 hfuel
  have h := hgen 1 fuel (fun i => if i = 0 then q0 else q1)
    (by
      intro i hi
      interval_cases i
      simpa using hl0)
    (by
      intro i hi
      interval_cases i
      · simpa using hp0
      · simpa using hp1)
    (by simpa using hl1)
    (by omega)
  simpa [List.range_succ] using h

/-- Witness for C5: a full page of 100 identical items at `$skip = 0`
followed by a one-item page at `$skip = 100` yields the 101 decoded records
in order. -/
theorem claim_C5_witness :
    list_pull_requests "r"
      (fun skip =>
        if skip = 0 then
          List.replicate 100 ⟨some 1, some 0, some "a", none, some "active"⟩
        else if skip = 100 then
          [⟨some 1, some 0, some "a", none, some "active"⟩]
        else []) 2 =
      some (.ok (List.replicate 100
        (⟨1, some 0, "a", none, "active"⟩ : PullRequest) ++
        [⟨1, some 0, "a", none, "active"⟩])) := by
  have hitem : parse_pull_request_item "r"
      ⟨some 1, some 0, some "a", none, some "active"⟩ =
      .ok ⟨1, some 0, "a", none, "active"⟩ := rfl
  refine (claim_C5 "r" _).2 2 _ _ ?_ ?_ ?_ ?_ (le_refl 2)
  · simp
  · simpa using parse_page_replicate "r" _ _ hitem 100
  · simp
  · simpa using parse_page_replicate "r" _ _ hitem 1

/-- C7: a malformed item on any page the listing reaches makes the whole
operation fail with an `ApiError`, and every record an `ok` listing returns
has its creation date present and a non-empty author id and status. -/
theorem claim_C7 (repo_id : String) (pages : ℕ → List RawPullRequestItem) :
    (∀ (fuel j : ℕ) (item : RawPullRequestItem),
      (∀ i, i < j → (pages (i * 100)).length = 100) →
      (∀ i, i < j → ∃ qs, parse_page repo_id (pages (i * 100)) = .ok qs) →
      item ∈ pages (j * 100) → malformed item → j < fuel →
      ∃ e, list_pull_requests repo_id pages fuel = some (.error e)) ∧
    (∀ (fuel : ℕ) (prs : List PullRequest),
      list_pull_requests repo_id pages fuel = some (.ok prs) →
      ∀ pr ∈ prs, wellformed_pr pr) := by
  constructor
  · intro fuel j item hfull hok hmem hmal hfuel
    obtain ⟨e, he⟩ := parse_page_error_of_mem repo_id (pages (j * 100)) item
      hmem hmal
    refine ⟨e, ?_⟩
    have h := list_pull_requests_go_failure repo_id pages j fuel 0 [] e
      (by
        intro i hi
        rw [Nat.zero_add]
        exact hfull i hi)
      (by
        intro i hi
        rw [Nat.zero_add]
        exact hok i hi)
      (by
        rw [Nat.zero_add]
        exact he)
      hfuel
    simpa [list_pull_requests] using h
  · intro fuel prs h pr hm
    exact list_pull_requests_go_wellformed repo_id pages fuel 0 [] prs
      (by
        intro pr hmem
        exact absurd hmem (List.not_mem_nil pr))
      (by simpa [list_pull_requests] using h) pr hm

/-- Witness for C7: a first page holding an item with a missing id fails
with an error; a singleton well-formed listing yields a well-formed
record. -/
theorem claim_C7_witness :
    (∃ e, list_pull_requests "r"
      (fun _ => [⟨none, some 0, some "a", none, some "active"⟩]) 1 =
        some (.error e)) ∧
    wellformed_pr ⟨1, some 0, "a", none, "active"⟩ := by
  constructor
  · exact (claim_C7 "r" _).1 1 0 ⟨none, some 0, some "a", none, some "active"⟩
      (fun i hi => absurd hi (Nat.not_lt_zero i))
      (fun i hi => absurd hi (Nat.not_lt_zero i))
      (by simp) (Or.inl rfl) (by norm_num)
  · exact (claim_C7 "r"
      (fun _ => [⟨some 1, some 0, some "a", none, some "active"⟩])).2 1
      [⟨1, some 0, "a", none, "active"⟩] rfl
      ⟨1, some 0, "a", none, "active"⟩ (List.mem_singleton.mpr rfl)

end KPIGen
